import Mathlib

/-!
Shallow embedding of the pipeup CLI core (src/main.rs, src/websocket.rs,
src/stream_processor.rs).

The adaptive batching engine (`StreamProcessor::process_stdin`) is embedded as
a step function over an explicit `EngineState`.  External, nondeterministic
inputs of the real program are oracles:

* `timeUp : Nat → Bool` — whether `last_batch_time.elapsed().as_millis() >=
  adaptive_delay` held at a given loop iteration (indexed by the line count of
  that iteration).  Quantifying over all oracles over-approximates every real
  timing behaviour.
* `sendOk : Nat → Bool` — the outcome of the k-th `WebSocketClient::send_line`
  call of the run (`true` = `Ok`).

The externally observable behaviour (messages delivered to the transport and
sleeps performed) is recorded in an event trace.  Machine integers (`u64`,
`usize`) are modelled as `Nat`; `u64` subtraction is `Nat` truncated
subtraction, and claim C9 establishes that the one subtraction site never
truncates, i.e. the `u64` operation never underflows.
-/

namespace Pipeup

/-- Embedded JSON values, standing in for `serde_json::Value` as used by
`WebSocketClient::create_stream`.  An object is its parsed field map. -/
inductive JValue where
  | jnull
  | jbool (b : Bool)
  | jnum (n : Int)
  | jstr (s : String)
  | jarr (elems : List JValue)
  | jobj (fields : List (String × JValue))

/-- `serde_json::Value::get(key)`: field lookup on objects, `None` on
everything else. -/
def JValue.get : JValue → String → Option JValue
  | .jobj fields, key => fields.lookup key
  | _, _ => none

/-- `serde_json::Value::as_str`: `Some` exactly on JSON strings. -/
def JValue.as_str : JValue → Option String
  | .jstr s => some s
  | _ => none

/-- Inbound websocket messages as distinguished by the client's `match` arms:
`Message::Text`, `Message::Close`, and every other message type. -/
inductive Msg where
  | text (s : String)
  | close
  | other
deriving DecidableEq, Repr

/-- The single handshake response consumed by `create_stream`:
`self.sender.next().await` yields nothing (`noMsg`), a receive error
(`recvErr`, propagated by `response?`), or a message; a `Message::Text` carries
the result of `serde_json::from_str` on its payload. -/
inductive HandshakeResponse where
  | noMsg
  | recvErr (e : String)
  | closed
  | otherMsg
  | text (parsed : Except String JValue)

/-- The `anyhow` error cases produced by the embedded client functions. -/
inductive WsError where
  | parseError (e : String)
  | createFailed (e : JValue)
  | unexpectedFormat
  | closedWhileCreating
  | unexpectedMsgType
  | noResponse
  | notCreated
  | endSendFailed
  | recvError (e : String)

/-- `WebSocketClient::create_stream` (src/websocket.rs:56-90): reads one
message; on text, parses JSON and looks up `streamId` then `stream_id`
(`.get("streamId").or_else(|| get("stream_id")).and_then(|v| v.as_str())`);
falls back to the `error` field; otherwise fails. -/
def create_stream (resp : HandshakeResponse) : Except WsError String :=
  match resp with
  | .text (.error e) => .error (.parseError e)
  | .text (.ok response_json) =>
      match ((response_json.get "streamId").orElse
          (fun _ => response_json.get "stream_id")).bind JValue.as_str with
      | some stream_id => .ok stream_id
      | none =>
          match response_json.get "error" with
          | some err => .error (.createFailed err)
          | none => .error .unexpectedFormat
  | .closed => .error .closedWhileCreating
  | .otherMsg => .error .unexpectedMsgType
  | .recvErr e => .error (.recvError e)
  | .noMsg => .error .noResponse

/-- `WebSocketClient::end_stream` (src/websocket.rs:114-147): requires an
assigned stream id, sends the end message (`sendOk` is that send's outcome),
then consumes at most one response: any received message — text, close, or
anything else — is only logged, a missing response is fine, and a receive
error is propagated by `response?`. -/
def end_stream (stream_id : Option String) (sendOk : Bool)
    (recv : Option (Except String Msg)) : Except WsError Unit :=
  match stream_id with
  | none => .error .notCreated
  | some _ =>
      if sendOk then
        match recv with
        | some (.error e) => .error (.recvError e)
        | some (.ok _) => .ok ()
        | none => .ok ()
      else .error .endSendFailed

/-- `buffer_size` set in `StreamProcessor::new` (src/stream_processor.rs:20). -/
def BUFFER_SIZE : Nat := 10
/-- `MIN_DELAY_MS` (src/stream_processor.rs:38). -/
def MIN_DELAY_MS : Nat := 50
/-- `MAX_DELAY_MS` (src/stream_processor.rs:39). -/
def MAX_DELAY_MS : Nat := 2000
/-- `MAX_LINES_PER_SECOND` (src/stream_processor.rs:40). -/
def MAX_LINES_PER_SECOND : Nat := 30
/-- Initial `adaptive_delay` (src/stream_processor.rs:37). -/
def INITIAL_DELAY_MS : Nat := 100
/-- The safety limit compared against `line_count` (src/stream_processor.rs:95). -/
def LINE_LIMIT : Nat := 10000

/-- Externally observable events of a run: a line message delivered to the
transport, a `tokio::time::sleep`, and the end-of-stream message delivered. -/
inductive Event where
  | sentLine (content : String)
  | slept (ms : Nat)
  | sentEnd
deriving DecidableEq, Repr

/-- The engine's mutable state: `line_count` and `buffer` of `StreamProcessor`,
the local `adaptive_delay` of `process_stdin`, the number of `send_line` calls
made so far (`sendIdx`, indexing the send oracle), and the event trace. -/
structure EngineState where
  line_count : Nat
  buffer : List String
  adaptive_delay : Nat
  sendIdx : Nat
  trace : List Event
deriving DecidableEq, Repr

/-- State at loop entry: `line_count = 0`, empty buffer (`StreamProcessor::new`),
`adaptive_delay = 100`. -/
def initState : EngineState := ⟨0, [], INITIAL_DELAY_MS, 0, []⟩

/-- The `for line in &self.buffer` loop of `send_batch`
(src/stream_processor.rs:120-125): sends each line in order, consuming one
send-oracle entry per attempt, and stops at the first failure.  Returns
(all sends succeeded, lines actually delivered, next send index). -/
def send_lines (sendOk : Nat → Bool) : List String → Nat → Bool × List String × Nat
  | [], idx => (true, [], idx)
  | line :: rest, idx =>
      if sendOk idx then
        let r := send_lines sendOk rest (idx + 1)
        (r.1, line :: r.2.1, r.2.2)
      else (false, [], idx + 1)

/-- Result of one `send_batch` call: success flag, buffer after the call,
lines delivered to the transport during the call, next send index. -/
structure BatchResult where
  ok : Bool
  buffer : List String
  delivered : List String
  idx : Nat
deriving DecidableEq, Repr

/-- `StreamProcessor::send_batch` (src/stream_processor.rs:113-129): no-op on
an empty buffer; otherwise sends all buffered lines in order, returning the
error of the first failed send with the buffer untouched, and clearing the
buffer only on full success. -/
def send_batch (sendOk : Nat → Bool) (buffer : List String) (idx : Nat) :
    BatchResult :=
  if buffer.isEmpty then ⟨true, buffer, [], idx⟩
  else
    let r := send_lines sendOk buffer idx
    if r.1 then ⟨true, [], r.2.1, r.2.2⟩
    else ⟨false, buffer, r.2.1, r.2.2⟩

/-- Result of one iteration of the `while let Some(line)` loop: either the
iteration completed (`ok`) or it returned the send error after the backoff
sleep (`err`). -/
inductive StepResult where
  | ok (st : EngineState)
  | err (st : EngineState)
deriving DecidableEq, Repr

/-- One iteration of the main loop of `process_stdin`
(src/stream_processor.rs:43-98), minus the `break` check which lives in
`runLoop`: increment `line_count`, push the line, evaluate
`should_send_batch = buffer.len() >= buffer_size || elapsed >= adaptive_delay`,
and if so flush; on flush success shrink the delay and optionally perform the
rate-limit sleep, on flush failure double-and-clamp the delay, sleep it, and
abort. -/
def stepLine (timeUp sendOk : Nat → Bool) (st : EngineState) (line : String) :
    StepResult :=
  if decide (BUFFER_SIZE ≤ (st.buffer ++ [line]).length) || timeUp (st.line_count + 1) then
    if (send_batch sendOk (st.buffer ++ [line]) st.sendIdx).ok then
      StepResult.ok
        ⟨st.line_count + 1,
          (send_batch sendOk (st.buffer ++ [line]) st.sendIdx).buffer,
          max MIN_DELAY_MS (st.adaptive_delay - 10),
          (send_batch sendOk (st.buffer ++ [line]) st.sendIdx).idx,
          (st.trace ++
              ((send_batch sendOk (st.buffer ++ [line]) st.sendIdx).delivered.map
                Event.sentLine)) ++
            (if (st.line_count + 1) % MAX_LINES_PER_SECOND = 0
              then [Event.slept (max MIN_DELAY_MS (st.adaptive_delay - 10))]
              else [])⟩
    else
      StepResult.err
        ⟨st.line_count + 1,
          (send_batch sendOk (st.buffer ++ [line]) st.sendIdx).buffer,
          min MAX_DELAY_MS (st.adaptive_delay * 2),
          (send_batch sendOk (st.buffer ++ [line]) st.sendIdx).idx,
          (st.trace ++
              ((send_batch sendOk (st.buffer ++ [line]) st.sendIdx).delivered.map
                Event.sentLine)) ++
            [Event.slept (min MAX_DELAY_MS (st.adaptive_delay * 2))]⟩
  else
    StepResult.ok
      ⟨st.line_count + 1, st.buffer ++ [line], st.adaptive_delay, st.sendIdx, st.trace⟩

/-- Outcome of the main loop: the loop terminated normally (input exhausted or
safety limit hit) or aborted on a send error; `rest` is the input never read. -/
inductive LoopResult where
  | done (st : EngineState) (rest : List String)
  | aborted (st : EngineState) (rest : List String)
deriving DecidableEq, Repr

/-- The `while let Some(line) = lines.next_line()` loop of `process_stdin`
(src/stream_processor.rs:43-99) over the finite list of available input lines,
including the `line_count > 10000` break (src/stream_processor.rs:95-98). -/
def runLoop (timeUp sendOk : Nat → Bool) : List String → EngineState → LoopResult
  | [], st => .done st []
  | line :: rest, st =>
      match stepLine timeUp sendOk st line with
      | .err st' => .aborted st' rest
      | .ok st' =>
          if LINE_LIMIT < st'.line_count then .done st' rest
          else runLoop timeUp sendOk rest st'

/-- `Except.ok`-test used to turn the result of `end_stream` into the run's
success flag. -/
def isOk : Except WsError Unit → Bool
  | .ok _ => true
  | .error _ => false

/-- Overall outcome of one `process_stdin` run: success flag, the stream id
assigned by the handshake, the final engine state, and the unread input. -/
structure RunOutput where
  ok : Bool
  stream_id : Option String
  st : EngineState
  remaining : List String
deriving DecidableEq, Repr

/-- The shutdown path of `process_stdin` (src/stream_processor.rs:101-110):
flush the remaining buffer (`if !self.buffer.is_empty() { self.send_batch }`,
equivalently a `send_batch` call, which no-ops on an empty buffer), propagate
its failure, else send end-of-stream and wait for at most one response.
`endSendOk` is the outcome of sending the end message; the `sentEnd` event is
recorded exactly when that send succeeded. -/
def finishRun (sid : String) (endSendOk : Bool) (endRecv : Option (Except String Msg))
    (sendOk : Nat → Bool) (st : EngineState) (rest : List String) : RunOutput :=
  if (send_batch sendOk st.buffer st.sendIdx).ok then
    ⟨isOk (end_stream (some sid) endSendOk endRecv), some sid,
      ⟨st.line_count, (send_batch sendOk st.buffer st.sendIdx).buffer,
        st.adaptive_delay, (send_batch sendOk st.buffer st.sendIdx).idx,
        (st.trace ++ ((send_batch sendOk st.buffer st.sendIdx).delivered.map Event.sentLine)) ++
          (if endSendOk then [Event.sentEnd] else [])⟩,
      rest⟩
  else
    ⟨false, some sid,
      ⟨st.line_count, (send_batch sendOk st.buffer st.sendIdx).buffer,
        st.adaptive_delay, (send_batch sendOk st.buffer st.sendIdx).idx,
        st.trace ++ ((send_batch sendOk st.buffer st.sendIdx).delivered.map Event.sentLine)⟩,
      rest⟩

/-- `StreamProcessor::process_stdin` (src/stream_processor.rs:24-111):
handshake via `create_stream` (failure aborts before any line is read), then
the main loop, then the shutdown path. -/
def process_stdin (handshake : HandshakeResponse) (timeUp sendOk : Nat → Bool)
    (endSendOk : Bool) (endRecv : Option (Except String Msg))
    (lines : List String) : RunOutput :=
  match create_stream handshake with
  | .error _ => ⟨false, none, initState, lines⟩
  | .ok sid =>
      match runLoop timeUp sendOk lines initState with
      | .aborted st rest => ⟨false, some sid, st, rest⟩
      | .done st rest => finishRun sid endSendOk endRecv sendOk st rest

/-- The per-line messages in a trace, in order. -/
def sentLines (tr : List Event) : List String :=
  tr.filterMap (fun e => match e with | .sentLine s => some s | _ => none)

/-- Index (0-based, relative to `idx`) of the first failing send among the
next `n` sends, if any. -/
def firstFail (sendOk : Nat → Bool) (idx : Nat) : Nat → Option Nat
  | 0 => none
  | n + 1 =>
      if sendOk idx then (firstFail sendOk (idx + 1) n).map (· + 1)
      else some 0

/-- Ghost observer: the buffer length at each flush-decision point
(immediately after the push, where `should_send_batch` is evaluated) of a run
of the main loop. -/
def decisionLens (timeUp sendOk : Nat → Bool) : List String → EngineState → List Nat
  | [], _ => []
  | line :: rest, st =>
      (st.buffer ++ [line]).length ::
        (match stepLine timeUp sendOk st line with
          | .err _ => []
          | .ok st' =>
              if LINE_LIMIT < st'.line_count then []
              else decisionLens timeUp sendOk rest st')

/-- Ghost observer: `adaptive_delay` at entry of each iteration of the main
loop (every reachable loop state). -/
def loopDelays (timeUp sendOk : Nat → Bool) : List String → EngineState → List Nat
  | [], _ => []
  | line :: rest, st =>
      st.adaptive_delay ::
        (match stepLine timeUp sendOk st line with
          | .err _ => []
          | .ok st' =>
              if LINE_LIMIT < st'.line_count then []
              else loopDelays timeUp sendOk rest st')

/-- Ghost observer: the value of `adaptive_delay` fed into the success-path
update `max(MIN_DELAY_MS, adaptive_delay - 10)` at each iteration whose flush
succeeded (a successful in-loop flush is exactly an `ok` step that left the
buffer empty). -/
def successDelays (timeUp sendOk : Nat → Bool) : List String → EngineState → List Nat
  | [], _ => []
  | line :: rest, st =>
      match stepLine timeUp sendOk st line with
      | .err _ => []
      | .ok st' =>
          let tail :=
            if LINE_LIMIT < st'.line_count then []
            else successDelays timeUp sendOk rest st'
          if st'.buffer.isEmpty then st.adaptive_delay :: tail else tail

/-! ### Basic facts about the trace projection -/

@[simp]
theorem sentLines_nil : sentLines [] = [] := rfl

@[simp]
theorem sentLines_append (a b : List Event) :
    sentLines (a ++ b) = sentLines a ++ sentLines b :=
  List.filterMap_append a b _

@[simp]
theorem sentLines_map_sentLine (xs : List String) :
    sentLines (xs.map Event.sentLine) = xs := by
  induction xs with
  | nil => rfl
  | cons x xs ih =>
      simp only [List.map_cons, sentLines, List.filterMap_cons] at ih ⊢
      exact congrArg (x :: ·) ih

@[simp]
theorem sentLines_cons_sentLine (s : String) (tr : List Event) :
    sentLines (Event.sentLine s :: tr) = s :: sentLines tr := rfl

@[simp]
theorem sentLines_cons_slept (d : Nat) (tr : List Event) :
    sentLines (Event.slept d :: tr) = sentLines tr := rfl

@[simp]
theorem sentLines_cons_sentEnd (tr : List Event) :
    sentLines (Event.sentEnd :: tr) = sentLines tr := rfl

@[simp]
theorem sentLines_slept (d : Nat) : sentLines [Event.slept d] = [] := rfl

@[simp]
theorem sentLines_sentEnd : sentLines [Event.sentEnd] = [] := rfl

/-! ### The batch sender -/

theorem firstFail_eq_none {f : Nat → Bool} {idx n : Nat}
    (h : ∀ k, k < n → f (idx + k) = true) : firstFail f idx n = none := by
  induction n generalizing idx with
  | zero => rfl
  | succ n ih =>
      have h0 : f idx = true := by simpa using h 0 (Nat.succ_pos n)
      have htail : ∀ k, k < n → f (idx + 1 + k) = true := by
        intro k hk
        have := h (k + 1) (by omega)
        simpa [Nat.add_assoc, Nat.add_comm 1 k] using this
      simp [firstFail, h0, ih htail]

theorem firstFail_eq_some {f : Nat → Bool} {idx n j : Nat}
    (hj : j < n) (hf : f (idx + j) = false)
    (hmin : ∀ k, k < j → f (idx + k) = true) : firstFail f idx n = some j := by
  induction n generalizing idx j with
  | zero => omega
  | succ n ih =>
      cases j with
      | zero =>
          have h0 : f idx = false := by simpa using hf
          simp [firstFail, h0]
      | succ j =>
          have h0 : f idx = true := by simpa using hmin 0 (Nat.succ_pos j)
          have hf' : f (idx + 1 + j) = false := by
            have : idx + 1 + j = idx + (j + 1) := by omega
            rw [this]; exact hf
          have hmin' : ∀ k, k < j → f (idx + 1 + k) = true := by
            intro k hk
            have : idx + 1 + k = idx + (k + 1) := by omega
            rw [this]; exact hmin (k + 1) (by omega)
          simp [firstFail, h0, ih (by omega) hf' hmin']

theorem send_lines_eq (f : Nat → Bool) (ls : List String) (idx : Nat) :
    send_lines f ls idx =
      match firstFail f idx ls.length with
      | none => (true, ls, idx + ls.length)
      | some j => (false, ls.take j, idx + j + 1) := by
  induction ls generalizing idx with
  | nil => simp [send_lines, firstFail]
  | cons line rest ih =>
      by_cases h : f idx = true
      · rw [send_lines, if_pos h]
        rw [ih (idx + 1)]
        simp only [List.length_cons, firstFail, if_pos h]
        cases hff : firstFail f (idx + 1) rest.length with
        | none => simp [hff, Prod.ext_iff]; omega
        | some j => simp [hff, Prod.ext_iff, List.take_succ_cons]; omega
      · rw [send_lines, if_neg h]
        simp only [List.length_cons, firstFail,
          if_neg h]
        simp

theorem send_batch_eq (f : Nat → Bool) (buf : List String) (idx : Nat) :
    send_batch f buf idx =
      match firstFail f idx buf.length with
      | none => ⟨true, [], buf, idx + buf.length⟩
      | some j => ⟨false, buf, buf.take j, idx + j + 1⟩ := by
  cases buf with
  | nil => simp [send_batch, firstFail]
  | cons line rest =>
      rw [send_batch, if_neg (by simp)]
      rw [send_lines_eq]
      cases hff : firstFail f idx (line :: rest).length with
      | none => simp [hff]
      | some j => simp [hff]

theorem send_batch_ok {f : Nat → Bool} {buf : List String} {idx : Nat}
    (h : (send_batch f buf idx).ok = true) :
    send_batch f buf idx = ⟨true, [], buf, idx + buf.length⟩ := by
  rw [send_batch_eq] at h ⊢
  cases hff : firstFail f idx buf.length with
  | none => rfl
  | some j => rw [hff] at h; simp at h

theorem send_batch_err {f : Nat → Bool} {buf : List String} {idx : Nat}
    (h : (send_batch f buf idx).ok = false) :
    ∃ j, firstFail f idx buf.length = some j ∧
      send_batch f buf idx = ⟨false, buf, buf.take j, idx + j + 1⟩ := by
  rw [send_batch_eq] at h ⊢
  cases hff : firstFail f idx buf.length with
  | none => rw [hff] at h; simp at h
  | some j => exact ⟨j, rfl, rfl⟩

/-- Claim C3: a flush is atomic with respect to the buffer.  An empty buffer
is a no-op that succeeds; when every buffered send succeeds the whole buffer
is delivered in order and cleared (one send per line); when the first failure
occurs at position `j`, exactly the lines before `j` were delivered, the send
attempts stop right there (`j + 1` oracle entries consumed, so later lines are
neither sent nor retried), the call reports failure, and the buffer is left
unchanged. -/
theorem c3_flush_atomic (f : Nat → Bool) (buf : List String) (idx : Nat) :
    (buf = [] → send_batch f buf idx = ⟨true, buf, [], idx⟩) ∧
    ((∀ k, k < buf.length → f (idx + k) = true) →
      send_batch f buf idx = ⟨true, [], buf, idx + buf.length⟩) ∧
    (∀ j, j < buf.length → f (idx + j) = false → (∀ k, k < j → f (idx + k) = true) →
      send_batch f buf idx = ⟨false, buf, buf.take j, idx + j + 1⟩) := by
  refine ⟨?_, ?_, ?_⟩
  · rintro rfl; rfl
  · intro hall
    rw [send_batch_eq, firstFail_eq_none hall]
  · intro j hj hf hmin
    rw [send_batch_eq, firstFail_eq_some hj hf hmin]

/-- Witness for C3 at a concrete input: sends succeed except the second one,
so the flush delivers only the first line, attempts two sends, fails, and
keeps the buffer. -/
theorem c3_flush_atomic_witness :
    send_batch (fun k => decide (k ≠ 1)) ["a", "b", "c"] 0 =
      ⟨false, ["a", "b", "c"], ["a"], 2⟩ :=
  (c3_flush_atomic (fun k => decide (k ≠ 1)) ["a", "b", "c"] 0).2.2 1 (by decide)
    (by decide) (by decide)

/-! ### The websocket client -/

/-- Claim C2: after the end-of-stream message has been sent, any response from
the peer — a text message, a close event, or any other message — leaves
`end_stream` successful, and so does the absence of any response before the
connection is closed. -/
theorem c2_end_stream_tolerant (sid : String) (r : Option Msg) :
    end_stream (some sid) true (r.map Except.ok) = Except.ok () := by
  cases r <;> rfl

/-- Claim C7: the handshake's identifier is an ordered fallback lookup,
`streamId` first, `stream_id` second, the found value then coerced to a
string; when the lookup yields no string, a present `error` field fails the
handshake with that error, and a response without identifier and error — like
a closed or absent response — fails with a protocol error. -/
theorem c7_handshake_lookup (j : JValue) :
    (∀ s, j.get "streamId" = some (JValue.jstr s) →
      create_stream (.text (.ok j)) = .ok s) ∧
    (∀ s, j.get "streamId" = none → j.get "stream_id" = some (JValue.jstr s) →
      create_stream (.text (.ok j)) = .ok s) ∧
    (∀ e, ((j.get "streamId").orElse (fun _ => j.get "stream_id")).bind JValue.as_str = none →
      j.get "error" = some e →
      create_stream (.text (.ok j)) = .error (.createFailed e)) ∧
    (((j.get "streamId").orElse (fun _ => j.get "stream_id")).bind JValue.as_str = none →
      j.get "error" = none →
      create_stream (.text (.ok j)) = .error .unexpectedFormat) ∧
    create_stream .closed = .error .closedWhileCreating ∧
    create_stream .noMsg = .error .noResponse := by
  refine ⟨?_, ?_, ?_, ?_, rfl, rfl⟩
  · intro s hs
    simp [create_stream, hs, Option.orElse, JValue.as_str]
  · intro s hnone hs
    simp [create_stream, hnone, hs, Option.orElse, JValue.as_str]
  · intro e hlook herr
    simp [create_stream, hlook, herr]
  · intro hlook herr
    simp [create_stream, hlook, herr]

/-- Witness for C7: with both fields present, `streamId` wins. -/
theorem c7_handshake_lookup_witness :
    create_stream (.text (.ok (.jobj [("streamId", .jstr "abc"), ("stream_id", .jstr "zzz")]))) =
      .ok "abc" :=
  (c7_handshake_lookup (.jobj [("streamId", .jstr "abc"), ("stream_id", .jstr "zzz")])).1
    "abc" rfl

/-! ### One loop iteration -/

theorem stepLine_ok_spec {t f : Nat → Bool} {st : EngineState} {line : String}
    {st' : EngineState} (h : stepLine t f st line = StepResult.ok st') :
    st'.line_count = st.line_count + 1 ∧
    sentLines st'.trace ++ st'.buffer = (sentLines st.trace ++ st.buffer) ++ [line] ∧
    st'.buffer.length < BUFFER_SIZE ∧
    (MIN_DELAY_MS ≤ st.adaptive_delay → st.adaptive_delay ≤ MAX_DELAY_MS →
      MIN_DELAY_MS ≤ st'.adaptive_delay ∧ st'.adaptive_delay ≤ MAX_DELAY_MS) ∧
    (sentLines st'.trace = [] →
      sentLines st.trace = [] ∧ st'.adaptive_delay = st.adaptive_delay) := by
  unfold stepLine at h
  by_cases hc : (decide (BUFFER_SIZE ≤ (st.buffer ++ [line]).length)
      || t (st.line_count + 1)) = true
  · rw [if_pos hc] at h
    by_cases hb : (send_batch f (st.buffer ++ [line]) st.sendIdx).ok = true
    · rw [if_pos hb] at h
      have hsb := send_batch_ok hb
      cases h
      rw [hsb]
      refine ⟨rfl, ?_, ?_, ?_, ?_⟩
      · simp only [BatchResult.delivered, BatchResult.buffer]
        split_ifs <;>
          simp [List.append_assoc]
      · simp [BUFFER_SIZE]
      · intro h1 h2
        simp only [MIN_DELAY_MS, MAX_DELAY_MS] at *
        omega
      · intro hempty
        exfalso
        simp only [BatchResult.delivered] at hempty
        revert hempty
        split_ifs <;> simp
    · rw [if_neg hb] at h
      exact absurd h (by simp)
  · rw [if_neg hc] at h
    cases h
    refine ⟨rfl, by simp [List.append_assoc], ?_, ?_, fun h => ⟨h, rfl⟩⟩
    · simp only [Bool.or_eq_true, decide_eq_true_eq, not_or] at hc
      simpa using Nat.lt_of_not_le hc.1
    · intro h1 h2; exact ⟨h1, h2⟩

theorem stepLine_err_spec {t f : Nat → Bool} {st : EngineState} {line : String}
    {st' : EngineState} (h : stepLine t f st line = StepResult.err st') :
    st'.line_count = st.line_count + 1 ∧
    st'.adaptive_delay = min MAX_DELAY_MS (st.adaptive_delay * 2) ∧
    (∃ tr, st'.trace = tr ++ [Event.slept st'.adaptive_delay]) ∧
    (MIN_DELAY_MS ≤ st.adaptive_delay →
      MIN_DELAY_MS ≤ st'.adaptive_delay ∧ st'.adaptive_delay ≤ MAX_DELAY_MS) := by
  unfold stepLine at h
  by_cases hc : (decide (BUFFER_SIZE ≤ (st.buffer ++ [line]).length)
      || t (st.line_count + 1)) = true
  · rw [if_pos hc] at h
    by_cases hb : (send_batch f (st.buffer ++ [line]) st.sendIdx).ok = true
    · rw [if_pos hb] at h
      exact absurd h (by simp)
    · rw [if_neg hb] at h
      cases h
      refine ⟨rfl, rfl, ⟨_, rfl⟩, ?_⟩
      intro h1
      simp only [MIN_DELAY_MS, MAX_DELAY_MS] at *
      omega
  · rw [if_neg hc] at h
    exact absurd h (by simp)

/-! ### The main loop -/

theorem runLoop_done_spec (t f : Nat → Bool) (lines : List String)
    (st st' : EngineState) (rest : List String)
    (h : runLoop t f lines st = LoopResult.done st' rest) :
    ∃ pre, lines = pre ++ rest ∧
      st'.line_count = st.line_count + pre.length ∧
      sentLines st'.trace ++ st'.buffer = (sentLines st.trace ++ st.buffer) ++ pre ∧
      (MIN_DELAY_MS ≤ st.adaptive_delay → st.adaptive_delay ≤ MAX_DELAY_MS →
        MIN_DELAY_MS ≤ st'.adaptive_delay ∧ st'.adaptive_delay ≤ MAX_DELAY_MS) ∧
      (st.line_count ≤ LINE_LIMIT →
        st'.line_count = min (st.line_count + lines.length) (LINE_LIMIT + 1)) := by
  induction lines generalizing st with
  | nil =>
      rw [runLoop] at h
      obtain ⟨rfl, rfl⟩ : st = st' ∧ ([] : List String) = rest := by
        constructor <;> [skip; skip] <;> cases h <;> rfl
      exact ⟨[], rfl, by simp, by simp, fun h1 h2 => ⟨h1, h2⟩, fun hle => by simp; omega⟩
  | cons line rest0 ih =>
      rw [runLoop] at h
      cases hs : stepLine t f st line with
      | err st1 => rw [hs] at h; exact absurd h (by simp)
      | ok st1 =>
          rw [hs] at h
          dsimp only at h
          obtain ⟨hcount, habs, hbuf, hdelay, -⟩ := stepLine_ok_spec hs
          by_cases hlim : LINE_LIMIT < st1.line_count
          · rw [if_pos hlim] at h
            obtain ⟨rfl, rfl⟩ : st1 = st' ∧ rest0 = rest := by
              constructor <;> cases h <;> rfl
            refine ⟨[line], rfl, by simpa using hcount, by simpa using habs, hdelay, ?_⟩
            intro hle
            simp only [List.length_cons, LINE_LIMIT] at *
            omega
          · rw [if_neg hlim] at h
            obtain ⟨pre, hpre, hcnt, habs2, hdel2, hcap⟩ := ih st1 h
            refine ⟨line :: pre, by simp [hpre], by simp [hcnt, hcount]; omega, ?_, ?_, ?_⟩
            · rw [habs2, habs]
              simp
            · intro h1 h2
              obtain ⟨h3, h4⟩ := hdelay h1 h2
              exact hdel2 h3 h4
            · intro hle
              have hle1 : st1.line_count ≤ LINE_LIMIT := by omega
              have := hcap hle1
              simp only [List.length_cons]
              omega

theorem runLoop_aborted_spec (t f : Nat → Bool) (lines : List String)
    (st st' : EngineState) (rest : List String)
    (h : runLoop t f lines st = LoopResult.aborted st' rest) :
    ∃ pre line stmid, lines = pre ++ line :: rest ∧
      stepLine t f stmid line = StepResult.err st' ∧
      stmid.line_count = st.line_count + pre.length ∧
      (st.line_count ≤ LINE_LIMIT → stmid.line_count ≤ LINE_LIMIT) ∧
      (MIN_DELAY_MS ≤ st.adaptive_delay → st.adaptive_delay ≤ MAX_DELAY_MS →
        MIN_DELAY_MS ≤ stmid.adaptive_delay ∧ stmid.adaptive_delay ≤ MAX_DELAY_MS) ∧
      (sentLines stmid.trace = [] →
        sentLines st.trace = [] ∧ stmid.adaptive_delay = st.adaptive_delay) := by
  induction lines generalizing st with
  | nil => rw [runLoop] at h; exact absurd h (by simp)
  | cons line rest0 ih =>
      rw [runLoop] at h
      cases hs : stepLine t f st line with
      | err st1 =>
          rw [hs] at h
          dsimp only at h
          obtain ⟨rfl, rfl⟩ : st1 = st' ∧ rest0 = rest := by
            constructor <;> cases h <;> rfl
          exact ⟨[], line, st, rfl, hs, by simp, fun h => h,
            fun h1 h2 => ⟨h1, h2⟩, fun h => ⟨h, rfl⟩⟩
      | ok st1 =>
          rw [hs] at h
          dsimp only at h
          by_cases hlim : LINE_LIMIT < st1.line_count
          · rw [if_pos hlim] at h; exact absurd h (by simp)
          · rw [if_neg hlim] at h
            obtain ⟨hcount, -, -, hdelay, hnos⟩ := stepLine_ok_spec hs
            obtain ⟨pre, line', stmid, hpre, hstep, hcnt, hcap, hdel2, hnos2⟩ := ih st1 h
            refine ⟨line :: pre, line', stmid, by simp [hpre], hstep,
              by simp [hcnt, hcount]; omega, ?_, ?_, ?_⟩
            · intro _; exact hcap (by omega)
            · intro h1 h2
              obtain ⟨h3, h4⟩ := hdelay h1 h2
              exact hdel2 h3 h4
            · intro hmt
              obtain ⟨h5, h6⟩ := hnos2 hmt
              obtain ⟨h7, h8⟩ := hnos h5
              exact ⟨h7, h6.trans h8⟩

/-! ### Run-level observers -/

theorem decisionLens_bound (t f : Nat → Bool) (lines : List String) (st : EngineState)
    (hb : st.buffer.length < BUFFER_SIZE) :
    ∀ n ∈ decisionLens t f lines st, n ≤ BUFFER_SIZE := by
  induction lines generalizing st with
  | nil => simp [decisionLens]
  | cons line rest ih =>
      intro n hn
      rw [decisionLens] at hn
      rcases List.mem_cons.mp hn with h | h
      · subst h
        simp only [List.length_append, List.length_cons, List.length_nil]
        omega
      · cases hs : stepLine t f st line with
        | err st1 => rw [hs] at h; simp at h
        | ok st1 =>
            rw [hs] at h
            dsimp only at h
            by_cases hlim : LINE_LIMIT < st1.line_count
            · rw [if_pos hlim] at h; simp at h
            · rw [if_neg hlim] at h
              exact ih st1 (stepLine_ok_spec hs).2.2.1 n h

theorem loopDelays_range (t f : Nat → Bool) (lines : List String) (st : EngineState)
    (h1 : MIN_DELAY_MS ≤ st.adaptive_delay) (h2 : st.adaptive_delay ≤ MAX_DELAY_MS) :
    ∀ d ∈ loopDelays t f lines st, MIN_DELAY_MS ≤ d ∧ d ≤ MAX_DELAY_MS := by
  induction lines generalizing st with
  | nil => simp [loopDelays]
  | cons line rest ih =>
      intro d hd
      rw [loopDelays] at hd
      rcases List.mem_cons.mp hd with h | h
      · subst h; exact ⟨h1, h2⟩
      · cases hs : stepLine t f st line with
        | err st1 => rw [hs] at h; simp at h
        | ok st1 =>
            rw [hs] at h
            dsimp only at h
            by_cases hlim : LINE_LIMIT < st1.line_count
            · rw [if_pos hlim] at h; simp at h
            · rw [if_neg hlim] at h
              obtain ⟨h3, h4⟩ := (stepLine_ok_spec hs).2.2.2.1 h1 h2
              exact ih st1 h3 h4 d h

theorem successDelays_range (t f : Nat → Bool) (lines : List String) (st : EngineState)
    (h1 : MIN_DELAY_MS ≤ st.adaptive_delay) (h2 : st.adaptive_delay ≤ MAX_DELAY_MS) :
    ∀ d ∈ successDelays t f lines st, MIN_DELAY_MS ≤ d ∧ d ≤ MAX_DELAY_MS := by
  induction lines generalizing st with
  | nil => simp [successDelays]
  | cons line rest ih =>
      intro d hd
      rw [successDelays] at hd
      cases hs : stepLine t f st line with
      | err st1 => rw [hs] at hd; simp at hd
      | ok st1 =>
          rw [hs] at hd
          dsimp only at hd
          obtain ⟨h3, h4⟩ := (stepLine_ok_spec hs).2.2.2.1 h1 h2
          have htail : ∀ d, d ∈ (if LINE_LIMIT < st1.line_count then []
              else successDelays t f rest st1) → MIN_DELAY_MS ≤ d ∧ d ≤ MAX_DELAY_MS := by
            intro d hd
            by_cases hlim : LINE_LIMIT < st1.line_count
            · rw [if_pos hlim] at hd; simp at hd
            · rw [if_neg hlim] at hd
              exact ih st1 h3 h4 d hd
          by_cases hemp : st1.buffer.isEmpty = true
          · rw [if_pos hemp] at hd
            rcases List.mem_cons.mp hd with h | h
            · subst h; exact ⟨h1, h2⟩
            · exact htail d h
          · rw [if_neg hemp] at hd
            exact htail d hd

/-! ### The full run -/

theorem finishRun_base (sid : String) (es : Bool) (er : Option (Except String Msg))
    (f : Nat → Bool) (st : EngineState) (rest : List String) :
    (finishRun sid es er f st rest).st.line_count = st.line_count ∧
    (finishRun sid es er f st rest).remaining = rest := by
  unfold finishRun
  split_ifs <;> exact ⟨rfl, rfl⟩

theorem finishRun_ok_spec {sid : String} {es : Bool} {er : Option (Except String Msg)}
    {f : Nat → Bool} {st : EngineState} {rest : List String}
    (h : (finishRun sid es er f st rest).ok = true) :
    es = true ∧
    finishRun sid es er f st rest =
      ⟨true, some sid,
        ⟨st.line_count, [], st.adaptive_delay, st.sendIdx + st.buffer.length,
          (st.trace ++ st.buffer.map Event.sentLine) ++ [Event.sentEnd]⟩, rest⟩ := by
  unfold finishRun at h ⊢
  by_cases hfb : (send_batch f st.buffer st.sendIdx).ok = true
  · rw [if_pos hfb] at h ⊢
    cases es with
    | false => simp [end_stream, isOk] at h
    | true =>
        have hend : isOk (end_stream (some sid) true er) = true := h
        rw [send_batch_ok hfb]
        refine ⟨rfl, ?_⟩
        simp only [if_pos rfl]
        cases er with
        | none => rfl
        | some r =>
            cases r with
            | ok m => rfl
            | error e => simp [end_stream, isOk] at hend
  · rw [if_neg hfb] at h
    simp at h

theorem process_stdin_cases (hs : HandshakeResponse) (t f : Nat → Bool) (es : Bool)
    (er : Option (Except String Msg)) (lines : List String) :
    (∃ e, create_stream hs = .error e ∧
      process_stdin hs t f es er lines = ⟨false, none, initState, lines⟩) ∨
    (∃ sid st rest, create_stream hs = .ok sid ∧
      runLoop t f lines initState = .aborted st rest ∧
      process_stdin hs t f es er lines = ⟨false, some sid, st, rest⟩) ∨
    (∃ sid st rest, create_stream hs = .ok sid ∧
      runLoop t f lines initState = .done st rest ∧
      process_stdin hs t f es er lines = finishRun sid es er f st rest) := by
  cases hcs : create_stream hs with
  | error e =>
      exact Or.inl ⟨e, rfl, by simp only [process_stdin, hcs]⟩
  | ok sid =>
      cases hrl : runLoop t f lines initState with
      | aborted st rest =>
          exact Or.inr (Or.inl ⟨sid, st, rest, rfl, rfl,
            by simp only [process_stdin, hcs, hrl]⟩)
      | done st rest =>
          exact Or.inr (Or.inr ⟨sid, st, rest, rfl, rfl,
            by simp only [process_stdin, hcs, hrl]⟩)

/-! ### The claims about full runs -/

/-- Claim C1: in every successful run, the per-line messages delivered to the
transport are exactly the input lines that were read, in input order — no
line is reordered, dropped, or duplicated (the delivered sequence followed by
the unread input reconstitutes the input). -/
theorem c1_lines_in_order (hs : HandshakeResponse) (t f : Nat → Bool) (es : Bool)
    (er : Option (Except String Msg)) (lines : List String)
    (h : (process_stdin hs t f es er lines).ok = true) :
    sentLines (process_stdin hs t f es er lines).st.trace ++
      (process_stdin hs t f es er lines).remaining = lines := by
  rcases process_stdin_cases hs t f es er lines with
    ⟨e, -, heq⟩ | ⟨sid, st, rest, -, hrl, heq⟩ | ⟨sid, st, rest, -, hrl, heq⟩
  · rw [heq] at h; simp at h
  · rw [heq] at h; simp at h
  · rw [heq] at h ⊢
    obtain ⟨-, hfr⟩ := finishRun_ok_spec h
    rw [hfr]
    obtain ⟨pre, hpre, -, habs, -, -⟩ := runLoop_done_spec t f lines initState st rest hrl
    simp only [initState, sentLines_nil, List.append_nil, List.nil_append] at habs
    simp only [sentLines_append, sentLines_map_sentLine, sentLines_sentEnd,
      List.append_nil, List.append_assoc]
    rw [← List.append_assoc, habs, ← hpre]

/-- Witness for C1: a two-line run with no in-loop flush delivers both lines
at the final flush, in order. -/
theorem c1_lines_in_order_witness :
    sentLines (process_stdin (.text (.ok (.jobj [("streamId", .jstr "s")])))
        (fun _ => false) (fun _ => true) true none ["a", "b"]).st.trace ++
      (process_stdin (.text (.ok (.jobj [("streamId", .jstr "s")])))
        (fun _ => false) (fun _ => true) true none ["a", "b"]).remaining = ["a", "b"] :=
  c1_lines_in_order (.text (.ok (.jobj [("streamId", .jstr "s")])))
    (fun _ => false) (fun _ => true) true none ["a", "b"] rfl

/-- Claim C4: when a flush fails in the main loop, the delay is first updated
to `min(2000, delay * 2)`, a sleep of exactly that updated delay is the last
recorded event, the run aborts and the input after the failing line is never
read; when no line had been delivered before the failing flush (in particular
when the very first flush fails), the observed delay is
`min(2000, initialDelay * 2)`.  The abort propagates through `process_stdin`
unchanged. -/
theorem c4_failure_backoff (t f : Nat → Bool) (lines : List String)
    (st' : EngineState) (rest : List String)
    (h : runLoop t f lines initState = LoopResult.aborted st' rest) :
    ∃ pre line stmid,
      lines = pre ++ line :: rest ∧
      stepLine t f stmid line = StepResult.err st' ∧
      st'.adaptive_delay = min MAX_DELAY_MS (stmid.adaptive_delay * 2) ∧
      (∃ tr, st'.trace = tr ++ [Event.slept st'.adaptive_delay]) ∧
      (sentLines stmid.trace = [] →
        st'.adaptive_delay = min MAX_DELAY_MS (INITIAL_DELAY_MS * 2)) ∧
      (∀ hs es er sid, create_stream hs = Except.ok sid →
        process_stdin hs t f es er lines = ⟨false, some sid, st', rest⟩) := by
  obtain ⟨pre, line, stmid, hpre, hstep, -, -, -, hnos⟩ :=
    runLoop_aborted_spec t f lines initState st' rest h
  obtain ⟨-, hdelay, htr, -⟩ := stepLine_err_spec hstep
  refine ⟨pre, line, stmid, hpre, hstep, hdelay, htr, ?_, ?_⟩
  · intro hmt
    obtain ⟨-, h6⟩ := hnos hmt
    rw [hdelay, h6]
    rfl
  · intro hs es er sid hcs
    simp only [process_stdin, hcs, h]

/-- Witness for C4: the first line's flush fails (time-triggered flush, send
oracle always failing); the run aborts with delay `200 = min(2000, 100*2)`
after a sleep of 200. -/
theorem c4_failure_backoff_witness :
    ∃ pre line stmid,
      (["a"] : List String) = pre ++ line :: ([] : List String) ∧
      stepLine (fun _ => true) (fun _ => false) stmid line =
        StepResult.err ⟨1, ["a"], 200, 1, [Event.slept 200]⟩ ∧
      (200 : Nat) = min MAX_DELAY_MS (stmid.adaptive_delay * 2) ∧
      (∃ tr, [Event.slept 200] = tr ++ [Event.slept (200 : Nat)]) ∧
      (sentLines stmid.trace = [] →
        (200 : Nat) = min MAX_DELAY_MS (INITIAL_DELAY_MS * 2)) ∧
      (∀ hs es er sid, create_stream hs = Except.ok sid →
        process_stdin hs (fun _ => true) (fun _ => false) es er ["a"] =
          ⟨false, some sid, ⟨1, ["a"], 200, 1, [Event.slept 200]⟩, []⟩) :=
  c4_failure_backoff (fun _ => true) (fun _ => false) ["a"]
    ⟨1, ["a"], 200, 1, [Event.slept 200]⟩ [] rfl

/-- Claim C5: the pacing delay stays in `[MIN_DELAY_MS, MAX_DELAY_MS] = [50,
2000]` at every reachable iteration of the main loop (it starts at 100, inside
the range) and in the loop's final state, on both the normal and the aborting
path. -/
theorem c5_delay_in_range (t f : Nat → Bool) (lines : List String) :
    (∀ d ∈ loopDelays t f lines initState, MIN_DELAY_MS ≤ d ∧ d ≤ MAX_DELAY_MS) ∧
    (∀ st' rest,
      runLoop t f lines initState = LoopResult.done st' rest ∨
      runLoop t f lines initState = LoopResult.aborted st' rest →
      MIN_DELAY_MS ≤ st'.adaptive_delay ∧ st'.adaptive_delay ≤ MAX_DELAY_MS) := by
  constructor
  · exact loopDelays_range t f lines initState (by decide) (by decide)
  · rintro st' rest (h | h)
    · obtain ⟨p, hp, hc, ha, hdel, hcap⟩ := runLoop_done_spec t f lines initState st' rest h
      exact hdel (by decide) (by decide)
    · obtain ⟨p, l, stmid, hp, hstep, hc, hcap, hdel, hns⟩ :=
        runLoop_aborted_spec t f lines initState st' rest h
      obtain ⟨h1, h2⟩ := hdel (by decide) (by decide)
      exact (stepLine_err_spec hstep).2.2.2 h1

/-- Witness for C5: delay 100 at the first iteration is in range, and the
final delay 90 after one successful flush is in range. -/
theorem c5_delay_in_range_witness :
    (MIN_DELAY_MS ≤ 100 ∧ (100 : Nat) ≤ MAX_DELAY_MS) ∧
    (MIN_DELAY_MS ≤ 90 ∧ (90 : Nat) ≤ MAX_DELAY_MS) :=
  ⟨(c5_delay_in_range (fun _ => true) (fun _ => true) ["a"]).1 100 (by decide),
    (c5_delay_in_range (fun _ => true) (fun _ => true) ["a"]).2
      ⟨1, [], 90, 1, [Event.sentLine "a"]⟩ [] (Or.inl rfl)⟩

/-- Claim C8: at every flush-decision point of a run (just after the
iteration's single line is appended, where `should_send_batch` is evaluated),
the buffer holds at most `BUFFER_SIZE = 10` lines. -/
theorem c8_buffer_bounded (t f : Nat → Bool) (lines : List String) :
    ∀ n ∈ decisionLens t f lines initState, n ≤ BUFFER_SIZE :=
  decisionLens_bound t f lines initState (by decide)

/-- Witness for C8: the first decision point of a run sees one buffered line. -/
theorem c8_buffer_bounded_witness : (1 : Nat) ≤ BUFFER_SIZE :=
  c8_buffer_bounded (fun _ => false) (fun _ => true) ["a"] 1 (by decide)

/-- Claim C9: whenever the success-path update `max(MIN_DELAY_MS,
adaptive_delay - 10)` executes, the input delay is at least `MIN_DELAY_MS =
50`, so the `u64` subtraction `adaptive_delay - 10` cannot underflow (the
truncated subtraction round-trips: `d - 10 + 10 = d`). -/
theorem c9_no_underflow (t f : Nat → Bool) (lines : List String) :
    ∀ d ∈ successDelays t f lines initState,
      MIN_DELAY_MS ≤ d ∧ d - 10 + 10 = d := by
  intro d hd
  obtain ⟨h1, -⟩ := successDelays_range t f lines initState (by decide) (by decide) d hd
  refine ⟨h1, ?_⟩
  simp only [MIN_DELAY_MS] at h1
  omega

/-- Witness for C9: the first successful flush runs the update with delay 100,
and `100 - 10 + 10 = 100`. -/
theorem c9_no_underflow_witness :
    MIN_DELAY_MS ≤ 100 ∧ (100 : Nat) - 10 + 10 = 100 :=
  c9_no_underflow (fun _ => true) (fun _ => true) ["a"] 100 (by decide)

/-- Claim C6: after any run, `line_count` equals the number of lines read
(each read line increments it exactly once, on error paths too), and it never
exceeds `LINE_LIMIT + 1 = 10001`; in a successful run it is exactly
`min(input length, 10001)`, the remaining buffer was flushed (final buffer
empty) and the end-of-stream message is the last event. -/
theorem c6_line_count_cap (hs : HandshakeResponse) (t f : Nat → Bool) (es : Bool)
    (er : Option (Except String Msg)) (lines : List String) :
    (∃ pre, lines = pre ++ (process_stdin hs t f es er lines).remaining ∧
      (process_stdin hs t f es er lines).st.line_count = pre.length) ∧
    (process_stdin hs t f es er lines).st.line_count ≤ LINE_LIMIT + 1 ∧
    ((process_stdin hs t f es er lines).ok = true →
      (process_stdin hs t f es er lines).st.line_count = min lines.length (LINE_LIMIT + 1) ∧
      (process_stdin hs t f es er lines).st.buffer = [] ∧
      ∃ tr, (process_stdin hs t f es er lines).st.trace = tr ++ [Event.sentEnd]) := by
  rcases process_stdin_cases hs t f es er lines with
    ⟨e, -, heq⟩ | ⟨sid, st, rest, -, hrl, heq⟩ | ⟨sid, st, rest, -, hrl, heq⟩
  · rw [heq]
    exact ⟨⟨[], by simp [initState], by simp [initState]⟩,
      by simp [initState, LINE_LIMIT], fun hok => by simp at hok⟩
  · rw [heq]
    obtain ⟨pre, line, stmid, hpre, hstep, hcnt, hcap, -, -⟩ :=
      runLoop_aborted_spec t f lines initState st rest hrl
    obtain ⟨hc1, -, -, -⟩ := stepLine_err_spec hstep
    have hmid : stmid.line_count ≤ LINE_LIMIT := hcap (by simp [initState, LINE_LIMIT])
    simp only [initState, Nat.zero_add] at hcnt
    refine ⟨⟨pre ++ [line], by simp [hpre], ?_⟩, ?_, fun hok => by simp at hok⟩
    · simp [hc1, hcnt]
    · simp only [hc1, hcnt, LINE_LIMIT] at *
      omega
  · rw [heq]
    obtain ⟨hfc, hfrem⟩ := finishRun_base sid es er f st rest
    obtain ⟨pre, hpre, hcnt, -, -, hcap⟩ := runLoop_done_spec t f lines initState st rest hrl
    simp only [initState, Nat.zero_add] at hcnt hcap
    have hcap0 : st.line_count = min lines.length (LINE_LIMIT + 1) :=
      hcap (by simp [LINE_LIMIT])
    refine ⟨⟨pre, by rw [hfrem, hpre], by rw [hfc, hcnt]⟩, ?_, ?_⟩
    · rw [hfc, hcap0]; omega
    · intro hok
      obtain ⟨-, hfr⟩ := finishRun_ok_spec hok
      rw [hfr]
      exact ⟨by simpa using hcap0, rfl, ⟨_, rfl⟩⟩

/-- Witness for C6 at a one-line successful run: one line read, count 1 =
min(1, 10001), buffer flushed, end-of-stream last. -/
theorem c6_line_count_cap_witness :
    (∃ pre, (["a"] : List String) = pre ++
        (process_stdin (.text (.ok (.jobj [("streamId", .jstr "s")])))
          (fun _ => false) (fun _ => true) true none ["a"]).remaining ∧
      (process_stdin (.text (.ok (.jobj [("streamId", .jstr "s")])))
          (fun _ => false) (fun _ => true) true none ["a"]).st.line_count = pre.length) ∧
    (process_stdin (.text (.ok (.jobj [("streamId", .jstr "s")])))
        (fun _ => false) (fun _ => true) true none ["a"]).st.line_count ≤ LINE_LIMIT + 1 ∧
    ((process_stdin (.text (.ok (.jobj [("streamId", .jstr "s")])))
        (fun _ => false) (fun _ => true) true none ["a"]).st.line_count =
      min (["a"] : List String).length (LINE_LIMIT + 1) ∧
      (process_stdin (.text (.ok (.jobj [("streamId", .jstr "s")])))
        (fun _ => false) (fun _ => true) true none ["a"]).st.buffer = [] ∧
      ∃ tr, (process_stdin (.text (.ok (.jobj [("streamId", .jstr "s")])))
        (fun _ => false) (fun _ => true) true none ["a"]).st.trace =
          tr ++ [Event.sentEnd]) := by
  have h := c6_line_count_cap (.text (.ok (.jobj [("streamId", .jstr "s")])))
    (fun _ => false) (fun _ => true) true none ["a"]
  exact ⟨h.1, h.2.1, h.2.2 rfl⟩

/-- Claim C10: on empty input, provided the handshake succeeds and the
end-of-stream exchange succeeds, the run sends zero per-line messages (the
final flush is skipped on the empty buffer, no send-oracle entry is consumed),
sends exactly one end-of-stream message, and completes successfully with
`line_count = 0`. -/
theorem c10_empty_input (hs : HandshakeResponse) (t f : Nat → Bool)
    (er : Option (Except String Msg)) (sid : String)
    (h1 : create_stream hs = Except.ok sid)
    (h2 : end_stream (some sid) true er = Except.ok ()) :
    process_stdin hs t f true er [] =
      ⟨true, some sid, ⟨0, [], INITIAL_DELAY_MS, 0, [Event.sentEnd]⟩, []⟩ := by
  simp only [process_stdin, h1]
  rw [show runLoop t f [] initState = LoopResult.done initState [] from rfl]
  dsimp only
  unfold finishRun
  rw [if_pos (show (send_batch f initState.buffer initState.sendIdx).ok = true from rfl)]
  rw [h2]
  rfl

/-- Witness for C10: concrete empty-input run with a successful handshake and
no end-of-stream response. -/
theorem c10_empty_input_witness :
    process_stdin (.text (.ok (.jobj [("streamId", .jstr "s")]))) (fun _ => false)
        (fun _ => true) true none [] =
      ⟨true, some "s", ⟨0, [], INITIAL_DELAY_MS, 0, [Event.sentEnd]⟩, []⟩ :=
  c10_empty_input (.text (.ok (.jobj [("streamId", .jstr "s")])))
    (fun _ => false) (fun _ => true) none "s" rfl rfl

end Pipeup
